import Mathlib

/-!
Verification of the guesser pipeline of `qanta/guesser/abstract.py`:
guess generation (`AbstractGuesser.generate_guesses`), per-fold persistence
(`guess_path`, `save_guesses`, `load_guesses`) and cross-guesser aggregation
(`AbstractGuesser.preprocess_all_guesses`).

The pandas `DataFrame` of guesses is embedded as a list of rows; the
filesystem as a partial map from path strings to serialized tables.  The
`float` score column is embedded as `Int`: the pipeline never computes with
scores, it only stores them and compares them for equality (in
`drop_duplicates`).
-/

namespace QB

/-- One row of the guess `DataFrame` assembled by `generate_guesses`:
columns `qnum, sentence, token, guess, score, fold, guesser`. -/
structure GuessRow where
  qnum : Nat
  sentence : Nat
  token : Nat
  guess : String
  score : Int
  fold : String
  guesser : String
deriving DecidableEq

/-- A guess `DataFrame`, embedded as its list of rows in order. -/
abbrev GuessTable := List GuessRow

/-- A directory's worth of pickled guess tables: a partial map from path to
table, `none` meaning the file does not exist. -/
abbrev FS := String → Option GuessTable

/-- The empty directory: no file exists. -/
def emptyFS : FS := fun _ => none

/-- Writing one pickle file (`DataFrame.to_pickle`): overwrites the path. -/
def writeFile (fs : FS) (path : String) (t : GuessTable) : FS :=
  fun p => if p = path then some t else fs p

/-- `AbstractGuesser.guess_path`: `os.path.join(directory, 'guesses_{fold}.pickle')`. -/
def guess_path (directory : String) (fold : String) : String :=
  directory ++ "/guesses_" ++ fold ++ ".pickle"

/-- The fold list hardcoded in `save_guesses`: `['train', 'dev', 'test', 'devtest']`. -/
def SAVE_FOLDS : List String := ["train", "dev", "test", "devtest"]

/-- `AbstractGuesser.save_guesses`: for each fold of `SAVE_FOLDS`, writes the
sub-table `guess_df[guess_df.fold == fold]` to `guess_path(directory, fold)`. -/
def save_guesses (guess_df : GuessTable) (directory : String) (fs : FS) : FS :=
  SAVE_FOLDS.foldl
    (fun fs fold =>
      writeFile fs (guess_path directory fold) (guess_df.filter (fun r => r.fold == fold)))
    fs

/-- How a `load_guesses` call fails: the `assert len(folds) > 0` failing, or
`pd.read_pickle` raising `FileNotFoundError` for a missing file. -/
inductive LoadError where
  | emptyFolds : LoadError
  | notFound : String → LoadError
deriving DecidableEq

/-- `pd.read_pickle`: returns the file's table, or fails if the file is absent. -/
def read_pickle (fs : FS) (path : String) : Except LoadError GuessTable :=
  match fs path with
  | some t => .ok t
  | none => .error (.notFound path)

/-- `AbstractGuesser.load_guesses`: asserts a non-empty fold list, then reads
each requested fold's file in order and concatenates the tables
(`pd.concat`). -/
def load_guesses (fs : FS) (directory : String) (folds : List String) :
    Except LoadError GuessTable :=
  if folds.length > 0 then
    folds.foldlM
      (fun guess_df fold => do
        let t ← read_pickle fs (guess_path directory fold)
        pure (guess_df ++ t))
      []
  else
    .error .emptyFolds

/-- A quiz-bowl question record (`qanta.datasets.quiz_bowl.Question`, not under
`src/`).  Modelled from the spec: attributes `qnum` (unique integer id), `text`
(ordered sentence strings), `page` (canonical answer label), `fold` (fold tag),
and the derived "partials" view — here stored as the field `runs`, the finite
sequence of `(sentence_index, token_index, prefix_tokens)` triples that
`Question.partials()` yields. -/
structure Question where
  qnum : Nat
  text : List String
  page : String
  fold : String
  runs : List (Nat × Nat × List String)
deriving DecidableEq

/-- The two pieces of a concrete guesser that `generate_guesses` consumes:
its abstract `guess` method and its `display_name` property. -/
structure Guesser where
  guess : List String → Nat → List (List (String × Int))
  display_name : String

/-- The per-batch-position metadata remembered by `generate_guesses` in the
parallel lists `q_folds, q_qnums, q_sentences, q_tokens, question_texts`. -/
structure RunInfo where
  fold : String
  qnum : Nat
  sentence : Nat
  token : Nat
  text : String
deriving DecidableEq

/-- The flattened batch built by the fold/question/partials triple loop of
`generate_guesses`: one `RunInfo` per question partial, with
`text = ' '.join(text_list)`. -/
def question_runs (questions_by_fold : String → List Question) (folds : List String) :
    List RunInfo :=
  folds.flatMap fun fold =>
    (questions_by_fold fold).flatMap fun q =>
      q.runs.map fun st => ⟨fold, q.qnum, st.1, st.2.1, " ".intercalate st.2.2⟩

/-- One output row of `generate_guesses`: the `(guess, score)` pair stamped with
the remembered position metadata and the guesser's display name. -/
def stampRow (guesser_name : String) (p : RunInfo) (gs : String × Int) : GuessRow :=
  { qnum := p.qnum, sentence := p.sentence, token := p.token,
    guess := gs.1, score := gs.2, fold := p.fold, guesser := guesser_name }

/-- `AbstractGuesser.generate_guesses`: flattens all question partials of the
requested folds into one batch, calls `self.guess` once on it, asserts the
result has one entry per batch position (`none` models the `AssertionError`),
and expands each position's `(guess, score)` list into rows. -/
def generate_guesses (g : Guesser) (questions_by_fold : String → List Question)
    (max_n_guesses : Nat) (folds : List String) : Option GuessTable :=
  let question_texts := (question_runs questions_by_fold folds).map (fun p => p.text)
  let guesses_per_question := g.guess question_texts max_n_guesses
  if guesses_per_question.length = question_texts.length then
    some (((question_runs questions_by_fold folds).zip guesses_per_question).flatMap
      fun pg => pg.2.map (stampRow g.display_name pg.1))
  else
    none

/-- `keep='first'` duplicate removal (pandas `drop_duplicates`, and the set of
subgroup keys of a pandas `groupby`), with an accumulator of already-seen
elements. -/
def dedupFirstAux [DecidableEq α] (seen : List α) : List α → List α
  | [] => []
  | a :: l => if a ∈ seen then dedupFirstAux seen l else a :: dedupFirstAux (a :: seen) l

/-- Remove duplicates keeping the first occurrence of each element. -/
def dedupFirst [DecidableEq α] (l : List α) : List α := dedupFirstAux [] l

/-- Lexicographic order on `(qnum, sentence, token)` group keys, matching the
ascending key order in which pandas `groupby` iterates groups. -/
def keyLE (a b : Nat × Nat × Nat) : Bool :=
  a.1 < b.1 || (a.1 = b.1 && (a.2.1 < b.2.1 || (a.2.1 = b.2.1 && a.2.2 ≤ b.2.2)))

/-- Insert into a `keyLE`-sorted list of group keys. -/
def sortedInsert (x : Nat × Nat × Nat) : List (Nat × Nat × Nat) → List (Nat × Nat × Nat)
  | [] => [x]
  | y :: l => if keyLE x y then x :: y :: l else y :: sortedInsert x l

/-- Sort group keys ascending (insertion sort by `keyLE`). -/
def sortKeys : List (Nat × Nat × Nat) → List (Nat × Nat × Nat)
  | [] => []
  | x :: l => sortedInsert x (sortKeys l)

/-- The `(qnum, sentence, token)` key of a guess row. -/
def keyOf (r : GuessRow) : Nat × Nat × Nat := (r.qnum, r.sentence, r.token)

/-- The keys of `guess_df.groupby(['qnum', 'sentence', 'token'])`, in the
ascending order pandas iterates them. -/
def groupKeys (df : GuessTable) : List (Nat × Nat × Nat) :=
  sortKeys (dedupFirst (df.map keyOf))

/-- The group of rows for one `(qnum, sentence, token)` key, in original row
order as pandas `groupby` presents each group. -/
def groupOf (df : GuessTable) (k : Nat × Nat × Nat) : GuessTable :=
  df.filter (fun r => keyOf r == k)

/-- A row of a task's guess table: the guess row with the `guesser` column
dropped (`group.drop('guesser', axis=1)`). -/
structure TaskRow where
  qnum : Nat
  sentence : Nat
  token : Nat
  guess : String
  score : Int
  fold : String
deriving DecidableEq

/-- Drop the `guesser` column of one row. -/
def dropGuesser (r : GuessRow) : TaskRow :=
  { qnum := r.qnum, sentence := r.sentence, token := r.token,
    guess := r.guess, score := r.score, fold := r.fold }

/-- The guesser coverage index `guess_map`: a `defaultdict(set)` from guesser
display name to the set of `(qnum, sentence, token, guess)` tuples it produced. -/
def CovIndex := String → Finset (Nat × Nat × Nat × String)

/-- The initial `defaultdict(set)`: every guesser maps to the empty set. -/
def emptyCov : CovIndex := fun _ => ∅

/-- `guess_map[guesser].add(t)`. -/
def covAdd (m : CovIndex) (guesser : String) (t : Nat × Nat × Nat × String) : CovIndex :=
  fun g => if g = guesser then insert t (m g) else m g

/-- The inner loop of `preprocess_all_guesses` over one group: for each
`(guess, guesser)` subgroup key of `group.groupby(['guess', 'guesser'])`, add
`(qnum, sentence, token, guess)` to that guesser's coverage set. -/
def processGroup (cov : CovIndex) (group : GuessTable) (k : Nat × Nat × Nat) : CovIndex :=
  (dedupFirst (group.map fun r => (r.guess, r.guesser))).foldl
    (fun cov gg => covAdd cov gg.2 (k.1, k.2.1, k.2.2, gg.1)) cov

/-- A `Task`: a question paired with its deduplicated, guesser-agnostic guess
table. -/
abbrev Task := Question × List TaskRow

/-- The body of the main `preprocess_all_guesses` group loop for one key:
update the coverage index, look up `question_map[qnum]` (a missing key raises
`KeyError`, modelled as `none`), and append the task with the group's table
after `drop('guesser', axis=1).drop_duplicates()`. -/
def aggStep (question_map : Nat → Option Question) (df : GuessTable)
    (acc : CovIndex × List Task) (k : Nat × Nat × Nat) : Option (CovIndex × List Task) :=
  let group := groupOf df k
  let cov := processGroup acc.1 group k
  match question_map k.1 with
  | none => none
  | some question =>
      some (cov, acc.2 ++ [(question, dedupFirst (group.map dropGuesser))])

/-- The grouping phase of `preprocess_all_guesses` over the combined guess
table: iterate the `(qnum, sentence, token)` groups in pandas order, building
the coverage index and the task list; abort on an unknown `qnum`. -/
def aggregate (question_map : Nat → Option Question) (df : GuessTable) :
    Option (CovIndex × List Task) :=
  (groupKeys df).foldlM (aggStep question_map df) (emptyCov, [])

/-- The fold list `c.ALL_FOLDS` (`qanta.util.constants`, not under `src/`).
Modelled from the spec: the fixed fold vocabulary `{train, dev, test, devtest}`
of the persistence layer, so that `load_guesses`' default loads a guesser's
full guess table (all folds). -/
def ALL_FOLDS : List String := SAVE_FOLDS

/-- The loading phase of `preprocess_all_guesses`: for each enabled guesser's
output directory (the registry `c.GUESSER_LIST`, not under `src/`, modelled
from the spec as an explicit directory list), load its full guess table and
concatenate across guessers. -/
def load_all_guessers (fs : FS) (guesser_dirs : List String) : Except LoadError GuessTable :=
  guesser_dirs.foldlM
    (fun guess_df dir => do
      let t ← load_guesses fs dir ALL_FOLDS
      pure (guess_df ++ t))
    []

/-- `AbstractGuesser.preprocess_all_guesses`, up to writing the two artifacts:
load and concatenate every enabled guesser's tables, then aggregate.  `none`
models any raised error (missing file, empty registry leaving `guess_df` as
`None`, unknown `qnum`). -/
def preprocess_all_guesses (fs : FS) (guesser_dirs : List String)
    (question_map : Nat → Option Question) : Option (CovIndex × List Task) :=
  if guesser_dirs.isEmpty then
    none
  else
    match load_all_guessers fs guesser_dirs with
    | .error _ => none
    | .ok df => aggregate question_map df

/-- The filesystem state of one aggregation run: the persisted per-guesser
guess files, plus the two output artifact paths (`c.GUESSER_INDEX` and
`c.GUESS_TASKS`). -/
structure PipelineFS where
  guessFiles : FS
  guesserIndex : Option CovIndex
  guessTasks : Option (List Task)

/-- A full `preprocess_all_guesses` run over the filesystem: on success the
coverage index and task list are written to their artifact paths and the guess
files are untouched; on error nothing is written. -/
def run_preprocess (pfs : PipelineFS) (guesser_dirs : List String)
    (question_map : Nat → Option Question) : Option PipelineFS :=
  match preprocess_all_guesses pfs.guessFiles guesser_dirs question_map with
  | none => none
  | some ct => some { pfs with guesserIndex := some ct.1, guessTasks := some ct.2 }

theorem mem_dedupFirstAux [DecidableEq α] (seen : List α) (l : List α) (x : α) :
    x ∈ dedupFirstAux seen l ↔ x ∈ l ∧ x ∉ seen := by
  induction l generalizing seen with
  | nil => simp [dedupFirstAux]
  | cons a l ih =>
    by_cases ha : a ∈ seen
    · simp only [dedupFirstAux, if_pos ha, ih, List.mem_cons]
      constructor
      · rintro ⟨hx, hs⟩; exact ⟨Or.inr hx, hs⟩
      · rintro ⟨hx | hx, hs⟩
        · exact absurd (hx ▸ ha) hs
        · exact ⟨hx, hs⟩
    · simp only [dedupFirstAux, if_neg ha, List.mem_cons, ih]
      by_cases hxa : x = a
      · subst hxa; simp [ha]
      · simp [hxa]

theorem nodup_dedupFirstAux [DecidableEq α] (seen : List α) (l : List α) :
    (dedupFirstAux seen l).Nodup := by
  induction l generalizing seen with
  | nil => simp [dedupFirstAux]
  | cons a l ih =>
    by_cases ha : a ∈ seen
    · simpa [dedupFirstAux, if_pos ha] using ih seen
    · simp only [dedupFirstAux, if_neg ha, List.nodup_cons]
      refine ⟨fun hmem => ?_, ih (a :: seen)⟩
      exact ((mem_dedupFirstAux (a :: seen) l a).1 hmem).2 (List.mem_cons_self a seen)

theorem mem_dedupFirst [DecidableEq α] (l : List α) (x : α) :
    x ∈ dedupFirst l ↔ x ∈ l := by
  simp [dedupFirst, mem_dedupFirstAux]

theorem nodup_dedupFirst [DecidableEq α] (l : List α) : (dedupFirst l).Nodup :=
  nodup_dedupFirstAux [] l

theorem mem_sortedInsert (x y : Nat × Nat × Nat) (l : List (Nat × Nat × Nat)) :
    y ∈ sortedInsert x l ↔ y = x ∨ y ∈ l := by
  induction l with
  | nil => simp [sortedInsert]
  | cons a l ih =>
    by_cases h : keyLE x a
    · simp [sortedInsert, if_pos h]
    · simp only [sortedInsert, if_neg h, List.mem_cons, ih]
      tauto

theorem mem_sortKeys (l : List (Nat × Nat × Nat)) (x : Nat × Nat × Nat) :
    x ∈ sortKeys l ↔ x ∈ l := by
  induction l with
  | nil => simp [sortKeys]
  | cons a l ih => simp [sortKeys, mem_sortedInsert, ih]

theorem mem_groupKeys (df : GuessTable) (r : GuessRow) (hr : r ∈ df) :
    keyOf r ∈ groupKeys df := by
  rw [groupKeys, mem_sortKeys, mem_dedupFirst]
  exact List.mem_map_of_mem keyOf hr

theorem string_data_inj {a b : String} (h : a.data = b.data) : a = b := by
  cases a; cases b; exact congrArg String.mk h

theorem string_append_cancel_left {s a b : String} (h : s ++ a = s ++ b) : a = b := by
  have h2 : s.data ++ a.data = s.data ++ b.data := by
    rw [← String.data_append, ← String.data_append, h]
  exact string_data_inj (List.append_cancel_left h2)

theorem string_append_cancel_right {a b s : String} (h : a ++ s = b ++ s) : a = b := by
  have h2 : a.data ++ s.data = b.data ++ s.data := by
    rw [← String.data_append, ← String.data_append, h]
  exact string_data_inj (List.append_cancel_right h2)

theorem guess_path_inj (dir : String) {f₁ f₂ : String}
    (h : guess_path dir f₁ = guess_path dir f₂) : f₁ = f₂ := by
  unfold guess_path at h
  have h1 : dir ++ "/guesses_" ++ f₁ = dir ++ "/guesses_" ++ f₂ :=
    string_append_cancel_right h
  exact string_append_cancel_left h1

theorem guess_path_ne (dir : String) {f₁ f₂ : String} (h : f₁ ≠ f₂) :
    guess_path dir f₁ ≠ guess_path dir f₂ :=
  fun hc => h (guess_path_inj dir hc)

theorem save_guesses_lookup (tbl : GuessTable) (dir : String) (fs : FS) (f : String)
    (hf : f ∈ SAVE_FOLDS) :
    save_guesses tbl dir fs (guess_path dir f) = some (tbl.filter (fun r => r.fold == f)) := by
  have hsave : save_guesses tbl dir fs =
      writeFile (writeFile (writeFile (writeFile fs
        (guess_path dir "train") (tbl.filter (fun r => r.fold == "train")))
        (guess_path dir "dev") (tbl.filter (fun r => r.fold == "dev")))
        (guess_path dir "test") (tbl.filter (fun r => r.fold == "test")))
        (guess_path dir "devtest") (tbl.filter (fun r => r.fold == "devtest")) := rfl
  rw [hsave]
  simp only [SAVE_FOLDS, List.mem_cons, List.not_mem_nil, or_false] at hf
  rcases hf with hf | hf | hf | hf <;> subst hf <;>
    simp [writeFile, guess_path_ne dir (by decide : ("train" : String) ≠ "devtest"),
      guess_path_ne dir (by decide : ("train" : String) ≠ "test"),
      guess_path_ne dir (by decide : ("train" : String) ≠ "dev"),
      guess_path_ne dir (by decide : ("dev" : String) ≠ "devtest"),
      guess_path_ne dir (by decide : ("dev" : String) ≠ "test"),
      guess_path_ne dir (by decide : ("test" : String) ≠ "devtest")]

theorem save_guesses_other (tbl : GuessTable) (dir : String) (fs : FS) (p : String)
    (hp : ∀ f ∈ SAVE_FOLDS, p ≠ guess_path dir f) :
    save_guesses tbl dir fs p = fs p := by
  have hsave : save_guesses tbl dir fs =
      writeFile (writeFile (writeFile (writeFile fs
        (guess_path dir "train") (tbl.filter (fun r => r.fold == "train")))
        (guess_path dir "dev") (tbl.filter (fun r => r.fold == "dev")))
        (guess_path dir "test") (tbl.filter (fun r => r.fold == "test")))
        (guess_path dir "devtest") (tbl.filter (fun r => r.fold == "devtest")) := rfl
  rw [hsave]
  simp [writeFile, hp "train" (by decide), hp "dev" (by decide), hp "test" (by decide),
    hp "devtest" (by decide)]

theorem load_foldlM_ok (fs : FS) (dir : String) (folds : List String) :
    ∀ (acc : GuessTable), (∀ f ∈ folds, (fs (guess_path dir f)).isSome) →
    (folds.foldlM
      (fun guess_df fold => do
        let t ← read_pickle fs (guess_path dir fold)
        pure (guess_df ++ t))
      acc : Except LoadError GuessTable)
    = .ok (acc ++ folds.flatMap fun f => (fs (guess_path dir f)).getD []) := by
  induction folds with
  | nil =>
    intro acc _
    simp only [List.foldlM_nil, List.flatMap_nil, List.append_nil]
    rfl
  | cons f rest ih =>
    intro acc hall
    have hf : (fs (guess_path dir f)).isSome := hall f (List.mem_cons_self f rest)
    rcases Option.isSome_iff_exists.1 hf with ⟨tb, htb⟩
    rw [List.foldlM_cons]
    have hstep : (do
        let t ← read_pickle fs (guess_path dir f)
        pure (acc ++ t) : Except LoadError GuessTable) = .ok (acc ++ tb) := by
      simp [read_pickle, htb]
    rw [hstep]
    have hrest := ih (acc ++ tb) (fun f' hf' => hall f' (List.mem_cons_of_mem f hf'))
    simp only [List.flatMap_cons, htb, Option.getD_some]
    rw [← List.append_assoc]
    exact hrest

theorem load_guesses_ok (fs : FS) (dir : String) (folds : List String) (hne : folds ≠ [])
    (hall : ∀ f ∈ folds, (fs (guess_path dir f)).isSome) :
    load_guesses fs dir folds = .ok (folds.flatMap fun f => (fs (guess_path dir f)).getD []) := by
  unfold load_guesses
  rw [if_pos (by simpa [List.length_pos] using hne)]
  simpa using load_foldlM_ok fs dir folds [] hall

theorem load_foldlM_error (fs : FS) (dir : String) (folds : List String) :
    ∀ (acc : GuessTable), (∃ f ∈ folds, fs (guess_path dir f) = none) →
    ∃ p, (folds.foldlM
      (fun guess_df fold => do
        let t ← read_pickle fs (guess_path dir fold)
        pure (guess_df ++ t))
      acc : Except LoadError GuessTable) = .error (.notFound p) := by
  induction folds with
  | nil => intro acc h; simp at h
  | cons f rest ih =>
    intro acc h
    rw [List.foldlM_cons]
    cases hfs : fs (guess_path dir f) with
    | none =>
      refine ⟨guess_path dir f, ?_⟩
      have hstep : (do
          let t ← read_pickle fs (guess_path dir f)
          pure (acc ++ t) : Except LoadError GuessTable)
          = .error (.notFound (guess_path dir f)) := by
        simp [read_pickle, hfs]
      rw [hstep]
      rfl
    | some tb =>
      have hstep : (do
          let t ← read_pickle fs (guess_path dir f)
          pure (acc ++ t) : Except LoadError GuessTable) = .ok (acc ++ tb) := by
        simp [read_pickle, hfs]
      rw [hstep]
      rcases h with ⟨f', hf', hnone⟩
      rcases List.mem_cons.1 hf' with hf'' | hf''
      · subst hf''; rw [hfs] at hnone; exact absurd hnone (by simp)
      · exact ih (acc ++ tb) ⟨f', hf'', hnone⟩

theorem load_guesses_error (fs : FS) (dir : String) (folds : List String) (hne : folds ≠ [])
    (hmiss : ∃ f ∈ folds, fs (guess_path dir f) = none) :
    ∃ p, load_guesses fs dir folds = .error (.notFound p) := by
  unfold load_guesses
  rw [if_pos (by simpa [List.length_pos] using hne)]
  exact load_foldlM_error fs dir folds [] hmiss

theorem load_foldlM_mem (fs : FS) (dir : String) (folds : List String) :
    ∀ (acc t : GuessTable), (folds.foldlM
      (fun guess_df fold => do
        let t ← read_pickle fs (guess_path dir fold)
        pure (guess_df ++ t))
      acc : Except LoadError GuessTable) = .ok t →
    ∀ x ∈ t, x ∈ acc ∨ ∃ f ∈ folds, ∃ tb, fs (guess_path dir f) = some tb ∧ x ∈ tb := by
  induction folds with
  | nil =>
    intro acc t h x hx
    simp only [List.foldlM_nil] at h
    cases h
    exact Or.inl hx
  | cons f rest ih =>
    intro acc t h x hx
    rw [List.foldlM_cons] at h
    cases hfs : fs (guess_path dir f) with
    | none =>
      have : (do
          let t ← read_pickle fs (guess_path dir f)
          pure (acc ++ t) : Except LoadError GuessTable)
          = .error (.notFound (guess_path dir f)) := by
        simp [read_pickle, hfs]
      rw [this] at h
      exact absurd h (by simp [Bind.bind, Except.bind])
    | some tb =>
      have hstep : (do
          let t ← read_pickle fs (guess_path dir f)
          pure (acc ++ t) : Except LoadError GuessTable) = .ok (acc ++ tb) := by
        simp [read_pickle, hfs]
      rw [hstep] at h
      have h' : (rest.foldlM
          (fun guess_df fold => do
            let t ← read_pickle fs (guess_path dir fold)
            pure (guess_df ++ t))
          (acc ++ tb) : Except LoadError GuessTable) = .ok t := h
      rcases ih (acc ++ tb) t h' x hx with hacc | ⟨f', hf', tb', htb', hx'⟩
      · rcases List.mem_append.1 hacc with hl | hr
        · exact Or.inl hl
        · exact Or.inr ⟨f, List.mem_cons_self f rest, tb, hfs, hr⟩
      · exact Or.inr ⟨f', List.mem_cons_of_mem f hf', tb', htb', hx'⟩

theorem load_guesses_mem (fs : FS) (dir : String) (folds : List String) (t : GuessTable)
    (h : load_guesses fs dir folds = .ok t) :
    ∀ x ∈ t, ∃ f ∈ folds, ∃ tb, fs (guess_path dir f) = some tb ∧ x ∈ tb := by
  intro x hx
  unfold load_guesses at h
  by_cases hne : folds.length > 0
  · rw [if_pos hne] at h
    rcases load_foldlM_mem fs dir folds [] t h x hx with habs | hgood
    · exact absurd habs (List.not_mem_nil x)
    · exact hgood
  · rw [if_neg hne] at h
    exact absurd h (by simp)

/-- Claim C4: for every guess table and every non-empty list of folds drawn
from the fixed fold vocabulary, `save_guesses` followed by `load_guesses`
yields a table whose set of rows equals the set of rows of the original table
whose fold column is in the requested folds. -/
theorem save_load_round_trip (table : GuessTable) (dir : String) (fs : FS)
    (folds : List String) (hne : folds ≠ []) (hsub : ∀ f ∈ folds, f ∈ SAVE_FOLDS) :
    ∃ t, load_guesses (save_guesses table dir fs) dir folds = .ok t ∧
      ∀ r, r ∈ t ↔ r ∈ table ∧ r.fold ∈ folds := by
  have hall : ∀ f ∈ folds, ((save_guesses table dir fs) (guess_path dir f)).isSome := by
    intro f hf
    rw [save_guesses_lookup table dir fs f (hsub f hf)]
    rfl
  refine ⟨_, load_guesses_ok (save_guesses table dir fs) dir folds hne hall, ?_⟩
  intro r
  simp only [List.mem_flatMap]
  constructor
  · rintro ⟨f, hf, hr⟩
    rw [save_guesses_lookup table dir fs f (hsub f hf)] at hr
    simp only [Option.getD_some, List.mem_filter, beq_iff_eq] at hr
    exact ⟨hr.1, hr.2 ▸ hf⟩
  · rintro ⟨hmem, hfold⟩
    refine ⟨r.fold, hfold, ?_⟩
    rw [save_guesses_lookup table dir fs r.fold (hsub r.fold hfold)]
    simp [List.mem_filter, hmem]

/-- A concrete `dev`-fold guess row used by witnesses. -/
def rowDevG1 : GuessRow :=
  { qnum := 7, sentence := 0, token := 2, guess := "Napoleon", score := 9,
    fold := "dev", guesser := "g1" }

/-- A concrete row with the non-vocabulary fold tag `guesstrain`. -/
def rowGuesstrain : GuessRow :=
  { qnum := 7, sentence := 0, token := 2, guess := "Napoleon", score := 9,
    fold := "guesstrain", guesser := "g1" }

/-- Witness for C4 at a concrete table, directory and fold selection. -/
theorem save_load_round_trip_witness :
    (["dev"] : List String) ≠ [] ∧ (∀ f ∈ (["dev"] : List String), f ∈ SAVE_FOLDS) ∧
    ∃ t, load_guesses (save_guesses [rowDevG1] "d" emptyFS) "d" ["dev"] = .ok t ∧
      ∀ r, r ∈ t ↔ r ∈ ([rowDevG1] : GuessTable) ∧ r.fold ∈ ["dev"] :=
  ⟨by decide, by decide,
    save_load_round_trip [rowDevG1] "d" emptyFS ["dev"] (by decide) (by decide)⟩

/-- Claim C5: `load_guesses` fails on an empty fold list, reads each requested
fold's file and concatenates in request order, and fails with a not-found
condition whenever any requested fold's file is absent. -/
theorem load_guesses_error_handling (fs : FS) (dir : String) (folds : List String) :
    load_guesses fs dir [] = .error .emptyFolds ∧
    (folds ≠ [] → (∀ f ∈ folds, (fs (guess_path dir f)).isSome) →
      load_guesses fs dir folds
        = .ok (folds.flatMap fun f => (fs (guess_path dir f)).getD [])) ∧
    (folds ≠ [] → (∃ f ∈ folds, fs (guess_path dir f) = none) →
      ∃ p, load_guesses fs dir folds = .error (.notFound p)) :=
  ⟨rfl, load_guesses_ok fs dir folds, load_guesses_error fs dir folds⟩

/-- A directory holding only a `train` guess file, for the C5 witness. -/
def fsTrainOnly : FS :=
  fun p => if p = guess_path "d" "train" then some [] else none

/-- Witness for C5: loading `["dev"]` when only a `train` file exists fails
with a not-found condition; loading `[]` fails; loading `["train"]` succeeds. -/
theorem load_guesses_error_handling_witness :
    load_guesses fsTrainOnly "d" [] = .error .emptyFolds ∧
    (∃ p, load_guesses fsTrainOnly "d" ["dev"] = .error (.notFound p)) ∧
    load_guesses fsTrainOnly "d" ["train"] = .ok [] := by
  refine ⟨(load_guesses_error_handling fsTrainOnly "d" ["dev"]).1,
    (load_guesses_error_handling fsTrainOnly "d" ["dev"]).2.2 (by decide)
      ⟨"dev", by decide, by decide⟩, ?_⟩
  have h := (load_guesses_error_handling fsTrainOnly "d" ["train"]).2.1 (by decide)
    (by decide)
  simpa using h

/-- Claim C6: `save_guesses` writes exactly one file per fold of the fixed
vocabulary, named via `guess_path`, containing exactly the table's rows whose
fold column equals that fold, and touches no other path. -/
theorem save_guesses_writes_per_fold (table : GuessTable) (dir : String) (fs : FS) :
    (∀ f ∈ SAVE_FOLDS, save_guesses table dir fs (guess_path dir f)
        = some (table.filter (fun r => r.fold == f))) ∧
    (∀ p, (∀ f ∈ SAVE_FOLDS, p ≠ guess_path dir f) → save_guesses table dir fs p = fs p) :=
  ⟨save_guesses_lookup table dir fs, save_guesses_other table dir fs⟩

/-- Witness for C6: a table with no `devtest` rows still gets a (empty)
`devtest` file, and an unrelated path is untouched. -/
theorem save_guesses_writes_per_fold_witness :
    save_guesses [rowDevG1] "d" emptyFS (guess_path "d" "devtest") = some [] ∧
    save_guesses [rowDevG1] "d" emptyFS "other" = none := by
  constructor
  · have h := (save_guesses_writes_per_fold [rowDevG1] "d" emptyFS).1 "devtest" (by decide)
    simpa [rowDevG1] using h
  · have h := (save_guesses_writes_per_fold [rowDevG1] "d" emptyFS).2 "other" (by decide)
    simpa [emptyFS] using h

/-- Claim C9: a row whose fold tag is outside the four hardcoded folds is
written to no file by `save_guesses`, and no `load_guesses` call on that
directory can recover it. -/
theorem save_guesses_discards_unknown_folds (table : GuessTable) (dir : String)
    (r : GuessRow) (_hr : r ∈ table) (hf : r.fold ∉ SAVE_FOLDS) :
    (∀ p t', save_guesses table dir emptyFS p = some t' → r ∉ t') ∧
    (∀ folds t, load_guesses (save_guesses table dir emptyFS) dir folds = .ok t → r ∉ t) := by
  have hfile : ∀ p t', save_guesses table dir emptyFS p = some t' → r ∉ t' := by
    intro p t' hp hrt
    by_cases hcase : ∃ f ∈ SAVE_FOLDS, p = guess_path dir f
    · rcases hcase with ⟨f, hfs, hpf⟩
      rw [hpf, save_guesses_lookup table dir emptyFS f hfs] at hp
      cases hp
      have := (List.mem_filter.1 hrt).2
      rw [beq_iff_eq] at this
      exact hf (this ▸ hfs)
    · push_neg at hcase
      rw [save_guesses_other table dir emptyFS p hcase] at hp
      exact absurd hp (by simp [emptyFS])
  refine ⟨hfile, ?_⟩
  intro folds t hload hrt
  rcases load_guesses_mem _ dir folds t hload r hrt with ⟨f, _, tb, htb, hrtb⟩
  exact hfile (guess_path dir f) tb htb hrtb

/-- Witness for C9: a row tagged `guesstrain` is saved nowhere and cannot be
loaded back. -/
theorem save_guesses_discards_unknown_folds_witness :
    (∀ p t', save_guesses [rowGuesstrain] "d" emptyFS p = some t' → rowGuesstrain ∉ t') ∧
    (∀ folds t, load_guesses (save_guesses [rowGuesstrain] "d" emptyFS) "d" folds = .ok t →
      rowGuesstrain ∉ t) :=
  save_guesses_discards_unknown_folds [rowGuesstrain] "d" rowGuesstrain
    (by decide) (by decide)

theorem flatMap_zip_map_proj {α β γ : Type} (f : α → β → γ) (proj : γ → β)
    (hproj : ∀ a b, proj (f a b) = b) :
    ∀ (ps : List α) (gss : List (List β)), gss.length = ps.length →
    (((ps.zip gss).flatMap fun pg => pg.2.map (f pg.1)).map proj) = gss.flatten := by
  intro ps
  induction ps with
  | nil =>
    intro gss hlen
    rw [List.length_nil, List.length_eq_zero] at hlen
    subst hlen
    simp
  | cons p ps ih =>
    intro gss hlen
    cases gss with
    | nil => simp at hlen
    | cons gs gss =>
      simp only [List.zip_cons_cons, List.flatMap_cons, List.flatten_cons, List.map_append,
        List.map_map]
      rw [ih gss (by simpa using hlen)]
      congr 1
      have : (proj ∘ f p) = id := by
        funext b
        exact hproj p b
      rw [this, List.map_id]

/-- Claim C2: `generate_guesses` calls `guess` once on the single flattened
batch of all question-prefix texts; each returned `(answer, score)` pair
becomes exactly one row stamped with that position's remembered
`(fold, qnum, sentence, token)` and the guesser's display name, with no error
when a position gets fewer than `max_n_guesses` pairs.  The output depends on
the `guess` method only through its value on that single batch. -/
theorem generate_guesses_single_batch (g : Guesser) (qbf : String → List Question)
    (max_n_guesses : Nat) (folds : List String)
    (hlen : (g.guess ((question_runs qbf folds).map (fun p => p.text)) max_n_guesses).length
      = ((question_runs qbf folds).map (fun p => p.text)).length) :
    (∃ t, generate_guesses g qbf max_n_guesses folds = some t ∧
      t = ((question_runs qbf folds).zip
          (g.guess ((question_runs qbf folds).map (fun p => p.text)) max_n_guesses)).flatMap
        (fun pg => pg.2.map fun gs =>
          { qnum := pg.1.qnum, sentence := pg.1.sentence, token := pg.1.token,
            guess := gs.1, score := gs.2, fold := pg.1.fold,
            guesser := g.display_name })) ∧
    ∀ g' : Guesser, g'.display_name = g.display_name →
      g'.guess ((question_runs qbf folds).map (fun p => p.text)) max_n_guesses
        = g.guess ((question_runs qbf folds).map (fun p => p.text)) max_n_guesses →
      generate_guesses g' qbf max_n_guesses folds
        = generate_guesses g qbf max_n_guesses folds := by
  constructor
  · refine ⟨_, ?_, rfl⟩
    simp only [generate_guesses]
    rw [if_pos hlen]
    rfl
  · intro g' hname hguess
    simp only [generate_guesses, stampRow, hname, hguess]

/-- Claim C3: `generate_guesses` returns `none` (the `assert` fires) exactly
when the guesser's output length differs from the batch length; if the guesser
satisfies its length contract the failure branch is unreachable. -/
theorem generate_guesses_length_assertion (g : Guesser) (qbf : String → List Question)
    (max_n_guesses : Nat) (folds : List String) :
    ((g.guess ((question_runs qbf folds).map (fun p => p.text)) max_n_guesses).length
        ≠ ((question_runs qbf folds).map (fun p => p.text)).length →
      generate_guesses g qbf max_n_guesses folds = none) ∧
    ((∀ qs k, (g.guess qs k).length = qs.length) →
      (generate_guesses g qbf max_n_guesses folds).isSome = true) := by
  constructor
  · intro hne
    simp only [generate_guesses]
    rw [if_neg hne]
  · intro hcontract
    simp only [generate_guesses]
    rw [if_pos (hcontract _ _)]
    rfl

/-- Claim C10: no truncation to `max_n_guesses` and no sorting — projecting
the output rows to their `(guess, score)` pairs gives back exactly the
concatenation of the per-position lists the guesser returned, in order. -/
theorem generate_guesses_no_truncation (g : Guesser) (qbf : String → List Question)
    (max_n_guesses : Nat) (folds : List String)
    (hlen : (g.guess ((question_runs qbf folds).map (fun p => p.text)) max_n_guesses).length
      = ((question_runs qbf folds).map (fun p => p.text)).length) :
    ∃ t, generate_guesses g qbf max_n_guesses folds = some t ∧
      t.map (fun r => (r.guess, r.score))
        = (g.guess ((question_runs qbf folds).map (fun p => p.text)) max_n_guesses).flatten ∧
      t.length = ((g.guess ((question_runs qbf folds).map (fun p => p.text))
          max_n_guesses).map List.length).sum := by
  refine ⟨((question_runs qbf folds).zip
      (g.guess ((question_runs qbf folds).map (fun p => p.text)) max_n_guesses)).flatMap
        (fun pg => pg.2.map (stampRow g.display_name pg.1)), ?_, ?_, ?_⟩
  · simp only [generate_guesses]
    rw [if_pos hlen]
  · exact flatMap_zip_map_proj (stampRow g.display_name) (fun r => (r.guess, r.score))
      (fun a b => rfl) (question_runs qbf folds) _ (by simpa using hlen)
  · have h := flatMap_zip_map_proj (stampRow g.display_name) (fun r => (r.guess, r.score))
      (fun a b => rfl) (question_runs qbf folds) _ (by simpa using hlen)
    calc (((question_runs qbf folds).zip
          (g.guess ((question_runs qbf folds).map (fun p => p.text)) max_n_guesses)).flatMap
            fun pg => pg.2.map (stampRow g.display_name pg.1)).length
        = ((((question_runs qbf folds).zip
            (g.guess ((question_runs qbf folds).map (fun p => p.text)) max_n_guesses)).flatMap
              fun pg => pg.2.map (stampRow g.display_name pg.1)).map
                fun r => (r.guess, r.score)).length := by rw [List.length_map]
      _ = ((g.guess ((question_runs qbf folds).map (fun p => p.text))
            max_n_guesses).flatten).length := by rw [h]
      _ = ((g.guess ((question_runs qbf folds).map (fun p => p.text))
            max_n_guesses).map List.length).sum := by rw [List.length_flatten]

/-- A one-question source: question 7 with a single partial at `(0, 2)`. -/
def qbfOne : String → List Question := fun f =>
  if f = "dev" then
    [{ qnum := 7, text := ["x y z"], page := "Napoleon", fold := "dev",
       runs := [(0, 2, ["x", "y", "z"])] }]
  else []

/-- A guesser answering `Napoleon` then `Caesar` for every prefix. -/
def gNapoleon : Guesser :=
  { guess := fun ts _ => ts.map fun _ => [("Napoleon", 9), ("Caesar", 3)],
    display_name := "g1" }

/-- The first row `gNapoleon` produces for the `(7, 0, 2)` position. -/
def rowNap : GuessRow :=
  { qnum := 7, sentence := 0, token := 2, guess := "Napoleon", score := 9,
    fold := "dev", guesser := "g1" }

/-- The second row `gNapoleon` produces for the `(7, 0, 2)` position. -/
def rowCaesar : GuessRow :=
  { qnum := 7, sentence := 0, token := 2, guess := "Caesar", score := 3,
    fold := "dev", guesser := "g1" }

/-- Witness for C2: the spec's example — two guesses for one prefix with
`max_n_guesses = 5` yield exactly two rows, `Napoleon` first. -/
theorem generate_guesses_single_batch_witness :
    generate_guesses gNapoleon qbfOne 5 ["dev"] = some [rowNap, rowCaesar] := by
  obtain ⟨⟨t, hsome, ht⟩, _⟩ :=
    generate_guesses_single_batch gNapoleon qbfOne 5 ["dev"] (by decide)
  rw [hsome, ht]
  decide

/-- A guesser violating the length contract: it returns an empty list of
per-position guess lists for every batch. -/
def gBadLen : Guesser := { guess := fun _ _ => [], display_name := "bad" }

/-- A sparse but contract-abiding guesser: zero guesses per position. -/
def gSparse : Guesser :=
  { guess := fun ts _ => ts.map fun _ => [], display_name := "sparse" }

/-- Witness for C3: the contract violator aborts, the contract abider does not. -/
theorem generate_guesses_length_assertion_witness :
    generate_guesses gBadLen qbfOne 5 ["dev"] = none ∧
    (generate_guesses gSparse qbfOne 5 ["dev"]).isSome = true :=
  ⟨(generate_guesses_length_assertion gBadLen qbfOne 5 ["dev"]).1 (by decide),
    (generate_guesses_length_assertion gSparse qbfOne 5 ["dev"]).2
      (fun qs k => by simp [gSparse])⟩

/-- A guesser returning three unsorted pairs for every prefix. -/
def gMany : Guesser :=
  { guess := fun ts _ => ts.map fun _ => [("A", 1), ("C", 5), ("B", 3)],
    display_name := "m" }

/-- Witness for C10: with `max_n_guesses = 2`, all three pairs survive, in the
guesser's (unsorted) order. -/
theorem generate_guesses_no_truncation_witness :
    ∃ t, generate_guesses gMany qbfOne 2 ["dev"] = some t ∧
      t.map (fun r => (r.guess, r.score)) = [("A", 1), ("C", 5), ("B", 3)] ∧
      t.length = 3 := by
  obtain ⟨t, hsome, hmap, hlen⟩ :=
    generate_guesses_no_truncation gMany qbfOne 2 ["dev"] (by decide)
  refine ⟨t, hsome, ?_, ?_⟩
  · rw [hmap]
    decide
  · rw [hlen]
    decide

theorem covAdd_mem_self (m : CovIndex) (g : String) (t : Nat × Nat × Nat × String) :
    t ∈ covAdd m g t g := by
  simp [covAdd]

theorem covAdd_mono (m : CovIndex) (g : String) (t : Nat × Nat × Nat × String)
    (g' : String) (x : Nat × Nat × Nat × String) (hx : x ∈ m g') : x ∈ covAdd m g t g' := by
  unfold covAdd
  by_cases h : g' = g
  · subst h
    simp [hx]
  · simp [if_neg h, hx]

theorem foldCov_mono (k : Nat × Nat × Nat) (l : List (String × String)) :
    ∀ (cov : CovIndex) (g : String) (x : Nat × Nat × Nat × String), x ∈ cov g →
    x ∈ (l.foldl (fun cov gg => covAdd cov gg.2 (k.1, k.2.1, k.2.2, gg.1)) cov) g := by
  induction l with
  | nil => intro cov g x hx; exact hx
  | cons a l ih =>
    intro cov g x hx
    exact ih (covAdd cov a.2 (k.1, k.2.1, k.2.2, a.1)) g x
      (covAdd_mono cov a.2 (k.1, k.2.1, k.2.2, a.1) g x hx)

theorem foldCov_mem (k : Nat × Nat × Nat) (l : List (String × String)) :
    ∀ (cov : CovIndex) (gg : String × String), gg ∈ l →
    (k.1, k.2.1, k.2.2, gg.1)
      ∈ (l.foldl (fun cov gg => covAdd cov gg.2 (k.1, k.2.1, k.2.2, gg.1)) cov) gg.2 := by
  induction l with
  | nil => intro cov gg h; cases h
  | cons a l ih =>
    intro cov gg h
    rcases List.mem_cons.1 h with h | h
    · subst h
      exact foldCov_mono k l _ gg.2 _ (covAdd_mem_self cov gg.2 (k.1, k.2.1, k.2.2, gg.1))
    · exact ih (covAdd cov a.2 (k.1, k.2.1, k.2.2, a.1)) gg h

theorem processGroup_mono (cov : CovIndex) (group : GuessTable) (k : Nat × Nat × Nat)
    (g : String) (x : Nat × Nat × Nat × String) (hx : x ∈ cov g) :
    x ∈ processGroup cov group k g :=
  foldCov_mono k _ cov g x hx

theorem processGroup_mem (cov : CovIndex) (group : GuessTable) (k : Nat × Nat × Nat)
    (r : GuessRow) (hr : r ∈ group) :
    (k.1, k.2.1, k.2.2, r.guess) ∈ processGroup cov group k r.guesser := by
  have hmem : (r.guess, r.guesser) ∈ dedupFirst (group.map fun r => (r.guess, r.guesser)) :=
    (mem_dedupFirst _ _).2 (List.mem_map_of_mem _ hr)
  exact foldCov_mem k _ cov (r.guess, r.guesser) hmem

theorem keyOf_of_mem_groupOf (df : GuessTable) (k : Nat × Nat × Nat) (r : GuessRow)
    (hr : r ∈ groupOf df k) : keyOf r = k := by
  have h := (List.mem_filter.1 hr).2
  rwa [beq_iff_eq] at h

theorem mem_groupOf_self (df : GuessTable) (r : GuessRow) (hr : r ∈ df) :
    r ∈ groupOf df (keyOf r) :=
  List.mem_filter.2 ⟨hr, beq_self_eq_true (keyOf r)⟩

theorem agg_aux (qmap : Nat → Option Question) (df : GuessTable) (keys : List (Nat × Nat × Nat)) :
    ∀ (cov₀ : CovIndex) (tasks₀ : List Task) (cov : CovIndex) (tasks : List Task),
    keys.foldlM (aggStep qmap df) (cov₀, tasks₀) = some (cov, tasks) →
    ∃ app : List Task,
      tasks = tasks₀ ++ app ∧
      app.length = keys.length ∧
      (∀ g x, x ∈ cov₀ g → x ∈ cov g) ∧
      ∀ i (hik : i < keys.length) (hia : i < app.length),
        (app.get ⟨i, hia⟩).2
          = dedupFirst ((groupOf df (keys.get ⟨i, hik⟩)).map dropGuesser) ∧
        ∀ r ∈ groupOf df (keys.get ⟨i, hik⟩),
          (r.qnum, r.sentence, r.token, r.guess) ∈ cov r.guesser := by
  induction keys with
  | nil =>
    intro cov₀ tasks₀ cov tasks h
    simp only [List.foldlM_nil] at h
    have h' : (cov₀, tasks₀) = (cov, tasks) := by
      simpa [pure] using h
    have hc : cov₀ = cov := congrArg Prod.fst h'
    have ht : tasks₀ = tasks := congrArg Prod.snd h'
    refine ⟨[], by rw [List.append_nil]; exact ht.symm, rfl, ?_, ?_⟩
    · intro g x hx
      exact hc ▸ hx
    · intro i hik _
      exact absurd hik (by simp)
  | cons k keys ih =>
    intro cov₀ tasks₀ cov tasks h
    rw [List.foldlM_cons] at h
    cases hq : qmap k.1 with
    | none =>
      have hstep : aggStep qmap df (cov₀, tasks₀) k = none := by
        simp [aggStep, hq]
      rw [hstep] at h
      exact absurd h (by simp)
    | some question =>
      have hstep : aggStep qmap df (cov₀, tasks₀) k
          = some (processGroup cov₀ (groupOf df k) k,
              tasks₀ ++ [(question, dedupFirst ((groupOf df k).map dropGuesser))]) := by
        simp [aggStep, hq]
      rw [hstep] at h
      have h' : keys.foldlM (aggStep qmap df)
          (processGroup cov₀ (groupOf df k) k,
            tasks₀ ++ [(question, dedupFirst ((groupOf df k).map dropGuesser))])
          = some (cov, tasks) := h
      obtain ⟨app, happ, hlen, hmono, hpt⟩ := ih _ _ _ _ h'
      refine ⟨(question, dedupFirst ((groupOf df k).map dropGuesser)) :: app, ?_, ?_, ?_, ?_⟩
      · rw [happ]
        simp
      · simp [hlen]
      · intro g x hx
        exact hmono g x (processGroup_mono cov₀ (groupOf df k) k g x hx)
      · intro i hik hia
        cases i with
        | zero =>
          refine ⟨rfl, ?_⟩
          intro r hr
          have h1 : (k.1, k.2.1, k.2.2, r.guess)
              ∈ processGroup cov₀ (groupOf df k) k r.guesser :=
            processGroup_mem cov₀ (groupOf df k) k r hr
          have hkey : keyOf r = k := keyOf_of_mem_groupOf df k r hr
          have heq : (r.qnum, r.sentence, r.token, r.guess) = (k.1, k.2.1, k.2.2, r.guess) := by
            rw [← hkey]
            rfl
          rw [heq]
          exact hmono r.guesser _ h1
        | succ j =>
          have hik' : j < keys.length := by
            simpa [Nat.succ_lt_succ_iff] using hik
          have hia' : j < app.length := by
            simpa [Nat.succ_lt_succ_iff] using hia
          exact hpt j hik' hia'

/-- Claim C1: on success, `aggregate` produces one task per
`(qnum, sentence, token)` group whose guess table is the group with the
`guesser` column dropped and exact duplicates removed (so identical guesses
across guessers collapse to one row), while every combined row still lands in
its own guesser's coverage set. -/
theorem aggregate_dedup_and_coverage (qmap : Nat → Option Question) (df : GuessTable)
    (cov : CovIndex) (tasks : List Task) (h : aggregate qmap df = some (cov, tasks)) :
    tasks.length = (groupKeys df).length ∧
    (∀ r ∈ df, (r.qnum, r.sentence, r.token, r.guess) ∈ cov r.guesser) ∧
    ∀ i (hik : i < (groupKeys df).length) (hit : i < tasks.length),
      (tasks.get ⟨i, hit⟩).2.Nodup ∧
      ∀ x, x ∈ (tasks.get ⟨i, hit⟩).2 ↔
        x ∈ (groupOf df ((groupKeys df).get ⟨i, hik⟩)).map dropGuesser := by
  obtain ⟨app, happ, hlen, _, hpt⟩ := agg_aux qmap df (groupKeys df) emptyCov [] cov tasks h
  rw [List.nil_append] at happ
  subst happ
  refine ⟨hlen, ?_, ?_⟩
  · intro r hr
    have hk : keyOf r ∈ groupKeys df := mem_groupKeys df r hr
    rcases List.mem_iff_get.1 hk with ⟨n, hn⟩
    have hrg : r ∈ groupOf df ((groupKeys df).get n) := by
      rw [hn]
      exact mem_groupOf_self df r hr
    exact (hpt n.1 n.2 (by omega)).2 r hrg
  · intro i hik hit
    obtain ⟨hdd, hcov⟩ := hpt i hik hit
    constructor
    · rw [hdd]
      exact nodup_dedupFirst _
    · intro x
      rw [hdd, mem_dedupFirst]

/-- A second guesser's copy of `rowDevG1`: same six data columns, different
`guesser` column. -/
def rowDevG2 : GuessRow := { rowDevG1 with guesser := "g2" }

/-- The combined two-guesser table of the spec's collapsing example. -/
def dfTwoGuessers : GuessTable := [rowDevG1, rowDevG2]

/-- The question record for `qnum = 7` used by aggregation witnesses. -/
def questionSeven : Question :=
  { qnum := 7, text := ["x y z"], page := "Napoleon", fold := "dev",
    runs := [(0, 2, ["x", "y", "z"])] }

/-- A question source knowing only question 7. -/
def qmapSeven : Nat → Option Question := fun n =>
  if n = 7 then some questionSeven else none

/-- The coverage index `aggregate` computes on `dfTwoGuessers`. -/
def covTwoGuessers : CovIndex :=
  processGroup emptyCov (groupOf dfTwoGuessers (7, 0, 2)) (7, 0, 2)

/-- The task list `aggregate` computes on `dfTwoGuessers`. -/
def tasksTwoGuessers : List Task :=
  [(questionSeven, dedupFirst ((groupOf dfTwoGuessers (7, 0, 2)).map dropGuesser))]

/-- Witness for C1: the spec's example — two guessers agreeing on
`("Napoleon", 7, 0, 2)` at the same score collapse to one task row while both
coverage sets record the tuple. -/
theorem aggregate_dedup_and_coverage_witness :
    tasksTwoGuessers.length = (groupKeys dfTwoGuessers).length ∧
    (∀ r ∈ dfTwoGuessers,
      (r.qnum, r.sentence, r.token, r.guess) ∈ covTwoGuessers r.guesser) ∧
    ∀ i (hik : i < (groupKeys dfTwoGuessers).length) (hit : i < tasksTwoGuessers.length),
      (tasksTwoGuessers.get ⟨i, hit⟩).2.Nodup ∧
      ∀ x, x ∈ (tasksTwoGuessers.get ⟨i, hit⟩).2 ↔
        x ∈ (groupOf dfTwoGuessers ((groupKeys dfTwoGuessers).get ⟨i, hik⟩)).map dropGuesser :=
  aggregate_dedup_and_coverage qmapSeven dfTwoGuessers covTwoGuessers tasksTwoGuessers rfl

theorem agg_foldlM_none (qmap : Nat → Option Question) (df : GuessTable)
    (keys : List (Nat × Nat × Nat)) :
    ∀ (init : CovIndex × List Task), (∃ k ∈ keys, qmap k.1 = none) →
    keys.foldlM (aggStep qmap df) init = none := by
  induction keys with
  | nil =>
    intro init h
    simp at h
  | cons k keys ih =>
    intro init h
    rw [List.foldlM_cons]
    cases hq : qmap k.1 with
    | none =>
      have hstep : aggStep qmap df init k = none := by
        simp [aggStep, hq]
      rw [hstep]
      rfl
    | some question =>
      have hstep : aggStep qmap df init k
          = some (processGroup init.1 (groupOf df k) k,
              init.2 ++ [(question, dedupFirst ((groupOf df k).map dropGuesser))]) := by
        simp [aggStep, hq]
      rw [hstep]
      rcases h with ⟨k', hk', hnone⟩
      rcases List.mem_cons.1 hk' with hk'' | hk''
      · subst hk''
        rw [hq] at hnone
        exact absurd hnone (by simp)
      · exact ih _ ⟨k', hk'', hnone⟩

/-- Claim C7: a `qnum` present in the combined guess tables but absent from
the question source makes `preprocess_all_guesses` abort; neither artifact is
produced. -/
theorem preprocess_unknown_qnum_aborts (fs : FS) (dirs : List String)
    (qmap : Nat → Option Question) (df : GuessTable) (r : GuessRow)
    (hload : load_all_guessers fs dirs = .ok df) (hr : r ∈ df)
    (hq : qmap r.qnum = none) :
    preprocess_all_guesses fs dirs qmap = none ∧
    ∀ gi gt, run_preprocess ⟨fs, gi, gt⟩ dirs qmap = none := by
  have hpre : preprocess_all_guesses fs dirs qmap = none := by
    unfold preprocess_all_guesses
    cases hdirs : dirs.isEmpty with
    | true => rw [if_pos rfl]
    | false =>
      rw [if_neg (by simp [hdirs])]
      rw [hload]
      have hkey : keyOf r ∈ groupKeys df := mem_groupKeys df r hr
      exact agg_foldlM_none qmap df (groupKeys df) (emptyCov, [])
        ⟨keyOf r, hkey, hq⟩
  refine ⟨hpre, ?_⟩
  intro gi gt
  unfold run_preprocess
  rw [hpre]

/-- A one-guesser directory layout whose `train` file holds the row for
question 7 and whose other fold files are empty. -/
def fsSeven : FS := fun p =>
  if p = guess_path "g" "train" then some [rowDevG1]
  else if p = guess_path "g" "dev" then some []
  else if p = guess_path "g" "test" then some []
  else if p = guess_path "g" "devtest" then some []
  else none

/-- Witness for C7: question 7 has guesses on disk but is unknown to the
question source, so aggregation aborts. -/
theorem preprocess_unknown_qnum_aborts_witness :
    preprocess_all_guesses fsSeven ["g"] (fun _ => none) = none ∧
    ∀ gi gt, run_preprocess ⟨fsSeven, gi, gt⟩ ["g"] (fun _ => none) = none :=
  preprocess_unknown_qnum_aborts fsSeven ["g"] (fun _ => none) [rowDevG1] rowDevG1
    rfl (by decide) rfl

/-- Claim C8: aggregation is idempotent — a successful run writes the two
artifacts without touching the persisted guess tables, so running it again
from the resulting state succeeds and reproduces the exact same coverage
index and task list (the state is a fixed point). -/
theorem run_preprocess_idempotent (pfs : PipelineFS) (dirs : List String)
    (qmap : Nat → Option Question) (pfs₁ : PipelineFS)
    (h : run_preprocess pfs dirs qmap = some pfs₁) :
    run_preprocess pfs₁ dirs qmap = some pfs₁ ∧ pfs₁.guessFiles = pfs.guessFiles := by
  unfold run_preprocess at h ⊢
  cases hp : preprocess_all_guesses pfs.guessFiles dirs qmap with
  | none =>
    rw [hp] at h
    exact absurd h (by simp)
  | some ct =>
    rw [hp] at h
    injection h with h1
    subst h1
    have hfiles : ({ pfs with guesserIndex := some ct.1, guessTasks := some ct.2 } : PipelineFS).guessFiles = pfs.guessFiles := rfl
    rw [hfiles, hp]
    exact ⟨rfl, rfl⟩

/-- A pipeline state before aggregation: four empty fold files for guesser
directory `g`, no artifacts yet. -/
def pfsBefore : PipelineFS :=
  { guessFiles := fun p =>
      if p = guess_path "g" "train" then some []
      else if p = guess_path "g" "dev" then some []
      else if p = guess_path "g" "test" then some []
      else if p = guess_path "g" "devtest" then some []
      else none,
    guesserIndex := none, guessTasks := none }

/-- The pipeline state after one successful aggregation run on `pfsBefore`. -/
def pfsAfter : PipelineFS :=
  { pfsBefore with guesserIndex := some emptyCov, guessTasks := some [] }

/-- Witness for C8: a second run from the post-run state reproduces it. -/
theorem run_preprocess_idempotent_witness :
    run_preprocess pfsAfter ["g"] (fun _ => none) = some pfsAfter ∧
    pfsAfter.guessFiles = pfsBefore.guessFiles :=
  run_preprocess_idempotent pfsBefore ["g"] (fun _ => none) pfsAfter rfl

end QB
